import Mathlib

/-!
Verification development for the `uablock-rust` repository: a shallow
embedding of its four core components and proofs about them.

* `Whitelist` — `src/whitelist.rs` (allow-list matcher)
* SIP extraction — `src/sip_parser.rs` (`parse_udp_packet`)
* frame decoding — `src/packet_capture.rs` (`next_packet`, pure part)
* firewall reconciliation — `src/iptables_manager.rs` (`is_blocked`,
  `block_ip`, `unblock_ip`), modelled over an abstract command oracle
  standing for the external `iptables` process boundary.

Modelling conventions: Rust byte slices become `List Nat` (with bytes
below 256 where the arithmetic depends on it), Rust `String`s become
Lean `String`s, machine integers become `Nat`, and fallible calls
return `Option`/`Except`.  Unicode-sensitive Rust primitives
(`to_lowercase`, `trim`, `split_whitespace`, the regex classes) are
modelled per scalar value, which agrees with Rust on all ASCII input.
-/

namespace UABlock

/-! ## Generic string helpers (models of Rust std primitives) -/

/-- The Unicode `White_Space` set: the character class behind the regex
crate's `\s`, Rust's `char::is_whitespace`, `str::trim` and
`str::split_whitespace`. -/
def isUniWs (c : Char) : Bool :=
  c == ' ' || c == '\t' || c == '\n' || c == '\r' ||
  c == Char.ofNat 0x0B || c == Char.ofNat 0x0C || c == Char.ofNat 0x85 ||
  c == Char.ofNat 0xA0 || c == Char.ofNat 0x1680 ||
  (0x2000 ≤ c.toNat && c.toNat ≤ 0x200A) ||
  c == Char.ofNat 0x2028 || c == Char.ofNat 0x2029 ||
  c == Char.ofNat 0x202F || c == Char.ofNat 0x205F || c == Char.ofNat 0x3000

/-- Substring test on character lists: some suffix of `hay` starts with
`needle`.  Model of Rust `str::contains` with a string pattern. -/
def strContainsL (needle : List Char) : List Char → Bool
  | [] => needle.isEmpty
  | c :: t => ((c :: t).take needle.length == needle) || strContainsL needle t

/-- Model of Rust `haystack.contains(needle)`. -/
def strContains (hay needle : String) : Bool :=
  strContainsL needle.data hay.data

/-- Model of Rust `String::to_lowercase` (per-character; exact on ASCII). -/
def lowerStr (s : String) : String :=
  String.mk (s.data.map Char.toLower)

/-- Strip the trailing `'\r'` of a line accumulated in reverse order:
the per-item post-processing of Rust `str::lines`. -/
def finishLine (cur : List Char) : String :=
  if cur.head? == some '\r' then String.mk cur.tail.reverse
  else String.mk cur.reverse

/-- Worker for `rustLines`: `cur` holds the current line reversed. -/
def linesAux : List Char → List Char → List String
  | [], cur => if cur.isEmpty then [] else [String.mk cur.reverse]
  | c :: rest, cur =>
    if c == '\n' then finishLine cur :: linesAux rest []
    else linesAux rest (c :: cur)

/-- Model of Rust `str::lines`: split at `'\n'`, strip one `'\r'` before
each split point, no empty final line for a trailing newline, and the
final fragment (no newline) keeps a trailing `'\r'`. -/
def rustLines (s : String) : List String :=
  linesAux s.data []

/-- Model of Rust `s.split_whitespace().next()`: the first maximal run
of non-whitespace characters, if any. -/
def splitWsFirst (s : String) : Option String :=
  match s.data.dropWhile isUniWs with
  | [] => none
  | c :: t => some (String.mk ((c :: t).takeWhile (fun x => !isUniWs x)))

/-- Model of Rust `str::parse::<u32>()`: optional `'+'` sign, then a
nonempty digit string whose value fits in 32 bits. -/
def parseU32 (s : String) : Option Nat :=
  let l := if s.data.head? == some '+' then s.data.tail else s.data
  if !l.isEmpty && l.all Char.isDigit then
    let v := l.foldl (fun a c => a * 10 + (c.toNat - 48)) 0
    if v < 4294967296 then some v else none
  else none

/-- Model of Rust `str::trim` (both ends, Unicode whitespace). -/
def trimBoth (l : List Char) : List Char :=
  ((l.dropWhile isUniWs).reverse.dropWhile isUniWs).reverse

/-! ## Whitelist (src/whitelist.rs) -/

/-- The allow-list: an ordered sequence of patterns. -/
structure Whitelist where
  patterns : List String
deriving DecidableEq

/-- One pattern comparison of `Whitelist::is_allowed`: bidirectional
case-insensitive substring match. -/
def patternMatches (ua_lower : String) (p : String) : Bool :=
  let pattern_lower := lowerStr p
  strContains ua_lower pattern_lower || strContains pattern_lower ua_lower

/-- The scanning loop of `Whitelist::is_allowed`, returning at the
first matching pattern. -/
def allowLoop (ua_lower : String) : List String → Bool
  | [] => false
  | p :: rest =>
    if patternMatches ua_lower p then true else allowLoop ua_lower rest

/-- Model of `Whitelist::is_allowed` (src/whitelist.rs, lines 14-28). -/
def Whitelist.is_allowed (w : Whitelist) (user_agent : String) : Bool :=
  allowLoop (lowerStr user_agent) w.patterns

/-! ## SIP extractor (src/sip_parser.rs) -/

/-- An IPv4 source address (the network-layer address; `IpAddr` in the
source, always built from four bytes in this program). -/
structure IPv4 where
  a : Nat
  b : Nat
  c : Nat
  d : Nat
deriving DecidableEq

/-- Display form of an address, as Rust `IpAddr::to_string`. -/
def ipToString (ip : IPv4) : String :=
  Nat.repr ip.a ++ "." ++ Nat.repr ip.b ++ "." ++ Nat.repr ip.c ++ "." ++ Nat.repr ip.d

/-- The record produced by the SIP extractor. -/
structure SipRequest where
  source_ip : IPv4
  user_agent : String
  method : String
deriving DecidableEq

/-- Model of `std::str::from_utf8`: strict UTF-8 decoding of a byte
sequence (rejecting overlong forms, surrogates and values above
U+10FFFF), or `none` on any invalid byte. -/
def utf8Decode : List Nat → Option (List Char)
  | [] => some []
  | b :: rest =>
    if b < 0x80 then
      (utf8Decode rest).map (fun cs => Char.ofNat b :: cs)
    else if 0xC2 ≤ b && b ≤ 0xDF then
      match rest with
      | b1 :: rest1 =>
        if 0x80 ≤ b1 && b1 ≤ 0xBF then
          (utf8Decode rest1).map (fun cs => Char.ofNat ((b - 0xC0) * 64 + (b1 - 0x80)) :: cs)
        else none
      | [] => none
    else if 0xE0 ≤ b && b ≤ 0xEF then
      match rest with
      | b1 :: b2 :: rest2 =>
        let lo1 := if b == 0xE0 then 0xA0 else 0x80
        let hi1 := if b == 0xED then 0x9F else 0xBF
        if (lo1 ≤ b1 && b1 ≤ hi1) && (0x80 ≤ b2 && b2 ≤ 0xBF) then
          (utf8Decode rest2).map (fun cs =>
            Char.ofNat ((b - 0xE0) * 4096 + (b1 - 0x80) * 64 + (b2 - 0x80)) :: cs)
        else none
      | _ => none
    else if 0xF0 ≤ b && b ≤ 0xF4 then
      match rest with
      | b1 :: b2 :: b3 :: rest3 =>
        let lo1 := if b == 0xF0 then 0x90 else 0x80
        let hi1 := if b == 0xF4 then 0x8F else 0xBF
        if (lo1 ≤ b1 && b1 ≤ hi1) && (0x80 ≤ b2 && b2 ≤ 0xBF) && (0x80 ≤ b3 && b3 ≤ 0xBF) then
          (utf8Decode rest3).map (fun cs =>
            Char.ofNat ((b - 0xF0) * 262144 + (b1 - 0x80) * 4096 + (b2 - 0x80) * 64 + (b3 - 0x80)) :: cs)
        else none
      | _ => none
    else none

/-- The alternatives of the source's method regex, in order:
`^(INVITE|REGISTER|OPTIONS|ACK|BYE|CANCEL|PRACK|UPDATE|INFO|REFER|MESSAGE|SUBSCRIBE|NOTIFY)\s`. -/
def methodTokens : List String :=
  ["INVITE", "REGISTER", "OPTIONS", "ACK", "BYE", "CANCEL", "PRACK",
   "UPDATE", "INFO", "REFER", "MESSAGE", "SUBSCRIBE", "NOTIFY"]

/-- Whether position `n` of `cs` holds a regex-`\s` character. -/
def wsAfter (cs : List Char) (n : Nat) : Bool :=
  match cs.drop n with
  | c :: _ => isUniWs c
  | [] => false

/-- Whether `cs` starts with the token `t` followed by a `\s` character: one
alternative of the anchored method regex. -/
def startsMethodTok (cs : List Char) (t : String) : Bool :=
  (cs.take t.data.length == t.data) && wsAfter cs t.data.length

/-- The capture of the source's anchored method regex: the first (and,
as the tokens are mutually prefix-free, the only) alternative that
matches at the start of the text. -/
def matchMethod (cs : List Char) : Option String :=
  methodTokens.find? (startsMethodTok cs)

/-- Whether `c` is neither `'\r'` nor `'\n'` — the class `[^\r\n]` of the
User-Agent regex. -/
def notCRLF (c : Char) : Bool :=
  !(c == '\r' || c == '\n')

/-- Capture of `\s*([^\r\n]+)` at a fixed position (leftmost-first,
greedy, with backtracking): skip the maximal whitespace run; if a
character remains it is not CR/LF (CR/LF are whitespace), and the
capture is the following run of non-CR/LF characters; otherwise the
star gives back characters, succeeding at the last non-CR/LF
whitespace character if one exists. -/
def uaCapture (rest : List Char) : Option (List Char) :=
  match rest.dropWhile isUniWs with
  | c :: t => some ((c :: t).takeWhile notCRLF)
  | [] =>
    match rest.reverse.find? notCRLF with
    | some c => some [c]
    | none => none

/-- The 11 characters of `(?i)(?:user-agent|User-Agent):` match at the
head of `cs` (both regex alternatives are equal under `(?i)`). -/
def uaHeadMatches (cs : List Char) : Bool :=
  (cs.take 11).map Char.toLower == "user-agent:".data

/-- Leftmost match of the source's User-Agent regex
`(?i)(?:user-agent|User-Agent):\s*([^\r\n]+)`: the first position where
the header name matches and the capture succeeds. -/
def findUA : List Char → Option (List Char)
  | [] => none
  | c :: cs =>
    if uaHeadMatches (c :: cs) then
      match uaCapture ((c :: cs).drop 11) with
      | some cap => some cap
      | none => findUA cs
    else findUA cs

/-- The `user_agent` value of the extractor: the regex capture trimmed,
or the literal `"Unknown"` when the regex finds no match. -/
def uaValue (cs : List Char) : String :=
  match findUA cs with
  | some cap => String.mk (trimBoth cap)
  | none => "Unknown"

/-- Model of `SipParser::parse_udp_packet` (src/sip_parser.rs, lines
31-86): decode the payload as UTF-8, match the anchored method regex,
extract the User-Agent, and materialize a record only for REGISTER and
INVITE.  The `source_ip` field is always the address argument. -/
def parse_udp_packet (data : List Nat) (source_ip : IPv4) : Option SipRequest :=
  match utf8Decode data with
  | none => none
  | some cs =>
    match matchMethod cs with
    | none => none
    | some method =>
      let user_agent := uaValue cs
      if !(method == "REGISTER") && !(method == "INVITE") then none
      else some { source_ip := source_ip, user_agent := user_agent, method := method }

/-- Modelled from the spec: "Separately extract a `User-Agent:` header
value (case-insensitive header name, value is the remainder of the line
trimmed of whitespace)" — the first line starting with the
case-insensitive header name yields the remainder of that line,
trimmed; `none` when no such line exists.  This is the spec's wording,
kept separate from the code model for comparison. -/
def specUserAgentLineValue (s : String) : Option String :=
  match (rustLines s).find? (fun l => uaHeadMatches l.data) with
  | some l => some (String.mk (trimBoth (l.data.drop 11)))
  | none => none

/-- UTF-8 bytes of an ASCII string (used to build concrete payloads). -/
def asciiBytes (s : String) : List Nat :=
  s.data.map Char.toNat

/-- Decidable equality for `Except` results (core derives none). -/
instance {ε α : Type} [DecidableEq ε] [DecidableEq α] : DecidableEq (Except ε α) := fun x y =>
  match x, y with
  | Except.ok a, Except.ok b =>
    if h : a = b then Decidable.isTrue (by rw [h])
    else Decidable.isFalse (fun hh => h (Except.ok.inj hh))
  | Except.error a, Except.error b =>
    if h : a = b then Decidable.isTrue (by rw [h])
    else Decidable.isFalse (fun hh => h (Except.error.inj hh))
  | Except.ok _, Except.error _ => Decidable.isFalse (fun hh => Except.noConfusion hh)
  | Except.error _, Except.ok _ => Decidable.isFalse (fun hh => Except.noConfusion hh)

/-! ## Frame decoder (src/packet_capture.rs) -/

/-- Bounds-checked byte access: `Except.error ()` models a
panicking out-of-bounds slice index, so `.ok` results certify that the
decoder never reads past the end of the frame. -/
def byteAt (d : List Nat) (i : Nat) : Except Unit Nat :=
  match d.get? i with
  | some b => Except.ok b
  | none => Except.error ()

/-- Total byte accessor (0 outside the list); the guarded accesses of
the decoder coincide with it, as `byteAt_lt` states. -/
def byteD (d : List Nat) (i : Nat) : Nat :=
  (d.get? i).getD 0

/-- The link-layer disambiguation of `next_packet` (src/packet_capture.rs,
lines 46-64): ethertype field at offsets 12-13, else the IPv4 version
nibble of byte 0, else offset 14; for frames under 14 bytes (dead code
behind the 20-byte guard), offset 0. -/
def ipStartOf (data : List Nat) : Nat :=
  if 14 ≤ data.length then
    let ethertype := ((byteD data 12) <<< 8) ||| (byteD data 13)
    if ethertype = 0x0800 then 14
    else if (byteD data 0) &&& 0xF0 = 0x40 then 0
    else 14
  else 0

/-- End offset of the network header: header start plus IHL×4. -/
def hdrEndOf (data : List Nat) : Nat :=
  ipStartOf data + ((byteD data (ipStartOf data)) &&& 0x0F) * 4

/-- The source address bytes at offsets 12-15 of the network header. -/
def srcIpOf (data : List Nat) : IPv4 :=
  let hdr := data.drop (ipStartOf data)
  ⟨byteD hdr 12, byteD hdr 13, byteD hdr 14, byteD hdr 15⟩

/-- The link-layer disambiguation step of `next_packet`
(src/packet_capture.rs, lines 46-64) with checked accesses. -/
def ipStartStep (data : List Nat) : Except Unit Nat :=
  if 14 ≤ data.length then
    match byteAt data 12, byteAt data 13 with
    | Except.ok b12, Except.ok b13 =>
      if (b12 <<< 8) ||| b13 = 0x0800 then Except.ok 14
      else
        (match byteAt data 0 with
         | Except.ok b0 => if b0 &&& 0xF0 = 0x40 then Except.ok 0 else Except.ok 14
         | Except.error e => Except.error e)
    | Except.error e, _ => Except.error e
    | _, Except.error e => Except.error e
  else
    (match byteAt data 0 with
     | Except.ok b0 => if b0 &&& 0xF0 = 0x40 then Except.ok 0 else Except.ok 0
     | Except.error e => Except.error e)

/-- The network-header processing of `next_packet` after the header
start offset is fixed (src/packet_capture.rs, lines 66-97). -/
def decodeAt (data : List Nat) (ipStart : Nat) : Except Unit (Option (IPv4 × List Nat)) :=
  if data.length < ipStart + 20 then Except.ok none
  else
    let hdr := data.drop ipStart
    match byteAt hdr 0 with
    | Except.error e => Except.error e
    | Except.ok h0 =>
      if h0 &&& 0xF0 ≠ 0x40 then Except.ok none
      else
        match byteAt hdr 12, byteAt hdr 13, byteAt hdr 14, byteAt hdr 15 with
        | Except.ok s1, Except.ok s2, Except.ok s3, Except.ok s4 =>
          let ip_header_len := (h0 &&& 0x0F) * 4
          let udp_data_start := ipStart + ip_header_len + 8
          if udp_data_start < data.length then
            Except.ok (some (⟨s1, s2, s3, s4⟩, data.drop udp_data_start))
          else Except.ok none
        | Except.error e, _, _, _ => Except.error e
        | _, Except.error e, _, _ => Except.error e
        | _, _, Except.error e, _ => Except.error e
        | _, _, _, Except.error e => Except.error e

/-- Model of the frame-processing part of `PacketCapture::next_packet`
(src/packet_capture.rs, lines 36-97): from a captured frame to
`some (source address, UDP payload)` or `none` (silent discard).
`Except.error ()` would mark an out-of-bounds read; every access is in
fact guarded, which the theorems about this function exhibit. -/
def next_packet_decode (data : List Nat) : Except Unit (Option (IPv4 × List Nat)) :=
  if data.length < 20 then Except.ok none
  else
    match ipStartStep data with
    | Except.error e => Except.error e
    | Except.ok ipStart => decodeAt data ipStart

/-! ## Firewall reconciler (src/iptables_manager.rs)

The reconciler shells out to the external `iptables` tool.  That
process boundary is modelled as an oracle: given the history of
commands issued so far (with their outcomes) and the next command's
argument list, the oracle answers with the invocation outcome.  The
embedded operations thread the history through every invocation, so a
theorem about the history is a theorem about exactly which commands a
call issues. -/

/-- Captured output of one `iptables` invocation
(`std::process::Output`, with `from_utf8_lossy` applied). -/
structure CmdResult where
  success : Bool
  stdout : String
  stderr : String
deriving DecidableEq

/-- Outcome of `Command::output()`: the process ran (with captured
output), or the invocation itself failed with an error. -/
inductive CmdOutcome where
  | ok (r : CmdResult)
  | err (e : String)
deriving DecidableEq

instance : Inhabited CmdOutcome := ⟨CmdOutcome.err ""⟩

/-- An `iptables` argument list. -/
abbrev Cmd := List String

/-- The issued commands so far, each with its outcome. -/
abbrev History := List (Cmd × CmdOutcome)

/-- The external firewall control boundary. -/
def Oracle := History → Cmd → CmdOutcome

/-- Issue one command: ask the oracle and append to the history. -/
def runCmd (o : Oracle) (h : History) (args : Cmd) : CmdOutcome × History :=
  (o h args, h ++ [(args, o h args)])

/-- The manager's configuration (chain name, optional port scope). -/
structure IptablesManager where
  chain_name : String
  block_port : Option Nat
deriving DecidableEq

/-- The optional `-p udp --dport PORT` argument block. -/
def portArgs (m : IptablesManager) : Cmd :=
  match m.block_port with
  | some port => ["-p", "udp", "--dport", Nat.repr port]
  | none => []

/-- The rule specification `CHAIN -s IP [-p udp --dport PORT] -j DROP`
shared by the check, append and delete-by-spec invocations. -/
def ruleOf (m : IptablesManager) (ipStr : String) : Cmd :=
  m.chain_name :: "-s" :: ipStr :: (portArgs m ++ ["-j", "DROP"])

/-- Arguments of `iptables -C …` (exact rule existence check). -/
def checkArgs (m : IptablesManager) (ipStr : String) : Cmd :=
  "-C" :: ruleOf m ipStr

/-- Arguments of `iptables -A …` (append rule). -/
def appendArgs (m : IptablesManager) (ipStr : String) : Cmd :=
  "-A" :: ruleOf m ipStr

/-- Arguments of `iptables -D …` (delete by rule specification). -/
def deleteSpecArgs (m : IptablesManager) (ipStr : String) : Cmd :=
  "-D" :: ruleOf m ipStr

/-- Listing arguments as issued by `is_blocked`: `-L CHAIN -n --line-numbers`. -/
def listArgsBlocked (m : IptablesManager) : Cmd :=
  ["-L", m.chain_name, "-n", "--line-numbers"]

/-- Listing arguments as issued by `unblock_ip`: `-L CHAIN --line-numbers -n`. -/
def listArgsUnblock (m : IptablesManager) : Cmd :=
  ["-L", m.chain_name, "--line-numbers", "-n"]

/-- One line of listed output matches in `is_blocked`'s fallback scan:
contains the IP and `DROP`, and — when a port is configured — the port
by `dpt:`-token, by bare number, or by the `sip` service alias for
port 5060 (src/iptables_manager.rs, lines 64-85). -/
def lineMatchesBlocked (m : IptablesManager) (ipStr line : String) : Bool :=
  strContains line ipStr && strContains line "DROP" &&
    (match m.block_port with
     | some port =>
       strContains line ("dpt:" ++ Nat.repr port)
         || strContains line (Nat.repr port)
         || (port == 5060 && (strContains line "dpt:sip" || strContains line "sip"))
     | none => true)

/-- Model of `IptablesManager::is_blocked` (src/iptables_manager.rs,
lines 24-94): first the exact `-C` check; if it does not report
success, list the chain and scan the lines; any listing failure counts
as not blocked. -/
def is_blocked (o : Oracle) (m : IptablesManager) (ip : IPv4) (h : History) :
    Bool × History :=
  let (r1, h1) := runCmd o h (checkArgs m (ipToString ip))
  let hit :=
    match r1 with
    | CmdOutcome.ok res => res.success
    | CmdOutcome.err _ => false
  if hit then (true, h1)
  else
    let (r2, h2) := runCmd o h1 (listArgsBlocked m)
    match r2 with
    | CmdOutcome.ok res =>
      if res.success then
        ((rustLines res.stdout).any (lineMatchesBlocked m (ipToString ip)), h2)
      else (false, h2)
    | CmdOutcome.err _ => (false, h2)

/-- Model of `IptablesManager::block_ip` (src/iptables_manager.rs,
lines 97-172): no-op success when already blocked; otherwise append the
rule; on command success re-check `is_blocked` as a post-condition
(listing the chain for diagnostics when the re-check fails) but return
`Ok` regardless; on command failure return the captured diagnostics. -/
def block_ip (o : Oracle) (m : IptablesManager) (ip : IPv4) (h : History) :
    Except String Unit × History :=
  let (b, h1) := is_blocked o m ip h
  if b then (Except.ok (), h1)
  else
    let (r, h2) := runCmd o h1 (appendArgs m (ipToString ip))
    match r with
    | CmdOutcome.ok res =>
      if res.success then
        let (b2, h3) := is_blocked o m ip h2
        if b2 then (Except.ok (), h3)
        else
          let (_, h4) := runCmd o h3 (listArgsBlocked m)
          (Except.ok (), h4)
      else
        (Except.error ("封禁 IP " ++ ipToString ip ++ " 失败: stderr=" ++ res.stderr
          ++ ", stdout=" ++ res.stdout), h2)
    | CmdOutcome.err e =>
      (Except.error ("执行 iptables 命令失败: " ++ e), h2)

/-- One listed line matches in `unblock_ip`'s scan: contains the IP,
`DROP`, and — when a port is configured — the bare port number
(src/iptables_manager.rs, lines 200-209). -/
def lineMatchesUnblock (m : IptablesManager) (ipStr line : String) : Bool :=
  strContains line ipStr && strContains line "DROP" &&
    (match m.block_port with
     | some port => strContains line (Nat.repr port)
     | none => true)

/-- The scan-and-delete loop of `unblock_ip` (src/iptables_manager.rs,
lines 200-235): for each matching line whose first token parses as a
`u32`, delete by line number; return at the first successful deletion,
warn and continue otherwise. -/
def tryDeleteLines (o : Oracle) (m : IptablesManager) (ipStr : String) :
    List String → History → Bool × History
  | [], h => (false, h)
  | line :: rest, h =>
    if lineMatchesUnblock m ipStr line then
      match splitWsFirst line with
      | some tok =>
        match parseU32 tok with
        | some num =>
          let (out, h1) := runCmd o h ["-D", m.chain_name, Nat.repr num]
          match out with
          | CmdOutcome.ok res =>
            if res.success then (true, h1)
            else tryDeleteLines o m ipStr rest h1
          | CmdOutcome.err _ => tryDeleteLines o m ipStr rest h1
        | none => tryDeleteLines o m ipStr rest h
      | none => tryDeleteLines o m ipStr rest h
    else tryDeleteLines o m ipStr rest h

/-- The fallback delete-by-specification of `unblock_ip`
(src/iptables_manager.rs, lines 237-276). -/
def fallbackSpecDelete (o : Oracle) (m : IptablesManager) (ipStr : String)
    (h : History) : Except String Unit × History :=
  let (r, h1) := runCmd o h (deleteSpecArgs m ipStr)
  match r with
  | CmdOutcome.ok res =>
    if res.success then (Except.ok (), h1)
    else (Except.error ("解封 IP " ++ ipStr ++ " 失败: " ++ res.stderr), h1)
  | CmdOutcome.err e =>
    (Except.error ("执行 iptables 命令失败: " ++ e), h1)

/-- Model of `IptablesManager::unblock_ip` (src/iptables_manager.rs,
lines 175-276): no-op success when not blocked; otherwise list the
chain with line numbers and delete the first matching line by number;
if no line-number deletion succeeds, fall back to deletion by rule
specification. -/
def unblock_ip (o : Oracle) (m : IptablesManager) (ip : IPv4) (h : History) :
    Except String Unit × History :=
  let (b, h1) := is_blocked o m ip h
  if !b then (Except.ok (), h1)
  else
    let (r, h2) := runCmd o h1 (listArgsUnblock m)
    match r with
    | CmdOutcome.ok res =>
      if !res.success then
        (Except.error ("获取 iptables 规则列表失败: " ++ res.stderr), h2)
      else
        let (deleted, h3) := tryDeleteLines o m (ipToString ip) (rustLines res.stdout) h2
        if deleted then (Except.ok (), h3)
        else fallbackSpecDelete o m (ipToString ip) h3
    | CmdOutcome.err e =>
      (Except.error ("执行 iptables 命令失败: " ++ e), h2)

/-- A command is rule-mutating when it appends or deletes (`-A`/`-D`). -/
def cmdMutating (c : Cmd) : Bool :=
  c.head? == some "-A" || c.head? == some "-D"

/-- A history entry that is a successful deletion invocation. -/
def isSuccDelete (e : Cmd × CmdOutcome) : Bool :=
  e.1.head? == some "-D" &&
    (match e.2 with
     | CmdOutcome.ok r => r.success
     | CmdOutcome.err _ => false)

/-! ### A conforming in-memory firewall (the fake rule table of the
spec's Firewall Control Port, §9): rules are stored as
`chain :: specification` argument lists, and the five operations are
interpreted against the table derived from the command history. -/

/-- Delete the `n`-th (1-based) rule of chain `ch` from the table. -/
def deleteLine : List Cmd → String → Nat → List Cmd
  | [], _, _ => []
  | r :: t, ch, n =>
    if r.head? == some ch then
      if n == 1 then t else r :: deleteLine t ch (n - 1)
    else r :: deleteLine t ch n

/-- Remove the first occurrence of an exact rule from the table. -/
def eraseRule : List Cmd → Cmd → List Cmd
  | [], _ => []
  | r :: t, rule => if r == rule then t else r :: eraseRule t rule

/-- Apply one already-issued command to the rule table. -/
def applyCmd (table : List Cmd) (args : Cmd) : List Cmd :=
  match args with
  | "-A" :: rule => table ++ [rule]
  | "-D" :: ch :: tok :: [] =>
    (match parseU32 tok with
     | some n => deleteLine table ch n
     | none => eraseRule table (ch :: tok :: []))
  | "-D" :: rule => eraseRule table rule
  | _ => table

/-- The rule table determined by a command history. -/
def tableAt (init : List Cmd) (h : History) : List Cmd :=
  h.foldl (fun t e => applyCmd t e.1) init

/-- The rules of one chain, in order. -/
def chainRules (t : List Cmd) (ch : String) : List Cmd :=
  t.filter (fun r => r.head? == some ch)

/-- Whether chain `ch` has an `n`-th (1-based) rule. -/
def lineExists (t : List Cmd) (ch : String) (n : Nat) : Bool :=
  1 ≤ n && n ≤ (chainRules t ch).length

/-- Render one table rule the way the scan code needs to see a listed
line: line number first, then `DROP`, the source address, and the
`dpt:`-suffixed port when present. -/
def renderRule (i : Nat) (r : Cmd) : String :=
  match r with
  | [_, "-s", s, "-j", "DROP"] =>
    Nat.repr i ++ (" " ++ ("DROP" ++ (" all -- " ++ s)))
  | [_, "-s", s, "-p", "udp", "--dport", p, "-j", "DROP"] =>
    Nat.repr i ++ (" " ++ ("DROP" ++ (" udp -- " ++ (s ++ (" udp " ++ ("dpt:" ++ p))))))
  | _ => Nat.repr i ++ " ?"

/-- Listed lines for the rules of one chain, numbered from 1. -/
def renderRules : Nat → List Cmd → List String
  | _, [] => []
  | i, r :: t => renderRule i r :: renderRules (i + 1) t

/-- Join listed lines with newlines (no trailing newline). -/
def joinLines : List String → String
  | [] => ""
  | [l] => l
  | l :: ls => l ++ "\n" ++ joinLines ls

/-- The listing body for one chain. -/
def listingOf (t : List Cmd) (ch : String) : String :=
  joinLines (renderRules 1 (chainRules t ch))

/-- The conforming in-memory firewall oracle: `-C` succeeds exactly for
a present rule, `-A` appends, `-L` lists the chain's rules with line
numbers, `-D n` deletes by position, `-D spec` deletes an exact rule. -/
def goodOracle (init : List Cmd) : Oracle := fun h args =>
  let t := tableAt init h
  match args with
  | "-C" :: rule =>
    if t.contains rule then CmdOutcome.ok ⟨true, "", ""⟩
    else CmdOutcome.ok ⟨false, "", ""⟩
  | "-A" :: _ => CmdOutcome.ok ⟨true, "", ""⟩
  | "-L" :: ch :: _ => CmdOutcome.ok ⟨true, listingOf t ch, ""⟩
  | "-D" :: ch :: tok :: [] =>
    (match parseU32 tok with
     | some n =>
       if lineExists t ch n then CmdOutcome.ok ⟨true, "", ""⟩
       else CmdOutcome.ok ⟨false, "", ""⟩
     | none =>
       if t.contains (ch :: tok :: []) then CmdOutcome.ok ⟨true, "", ""⟩
       else CmdOutcome.ok ⟨false, "", ""⟩)
  | "-D" :: rule =>
    if t.contains rule then CmdOutcome.ok ⟨true, "", ""⟩
    else CmdOutcome.ok ⟨false, "", ""⟩
  | _ => CmdOutcome.ok ⟨false, "", ""⟩

/-- A degenerate firewall for exercising failure paths: every
invocation fails except `-A`, which reports success without effect
(an append that silently does not take). -/
def failAppendOracle : Oracle := fun _ c =>
  if c.head? == some "-A" then CmdOutcome.ok ⟨true, "", ""⟩
  else CmdOutcome.ok ⟨false, "", ""⟩

/-! ### Facts about the helpers -/

theorem strContainsL_take {needle : List Char} {hay : List Char}
    (h : (hay.take needle.length == needle) = true) :
    strContainsL needle hay = true := by
  cases hay with
  | nil =>
    simp only [List.take_nil] at h
    have hn : needle = [] := (beq_iff_eq.1 h).symm
    simp [strContainsL, hn]
  | cons c t => simp [strContainsL, h]

theorem strContainsL_cons {needle : List Char} {c : Char} {t : List Char}
    (h : strContainsL needle t = true) :
    strContainsL needle (c :: t) = true := by
  simp [strContainsL, h]

theorem strContainsL_append_left {needle : List Char} (x : List Char)
    {t : List Char} (h : strContainsL needle t = true) :
    strContainsL needle (x ++ t) = true := by
  induction x with
  | nil => simpa using h
  | cons c cs ih => exact strContainsL_cons ih

theorem strContainsL_here (needle rest : List Char) :
    strContainsL needle (needle ++ rest) = true := by
  apply strContainsL_take
  simp [List.take_left]

/-- Substring of a concatenation that exhibits the needle literally. -/
theorem strContainsL_mid (x needle y : List Char) :
    strContainsL needle (x ++ (needle ++ y)) = true :=
  strContainsL_append_left x (strContainsL_here needle y)

theorem strContainsL_nil_needle (hay : List Char) :
    strContainsL [] hay = true := by
  cases hay with
  | nil => simp [strContainsL, List.isEmpty]
  | cons c t => apply strContainsL_take; simp

@[simp] theorem data_mk (l : List Char) : (String.mk l).data = l := rfl

/-- Every character that `Nat.digitChar` can produce is a decimal or
hexadecimal digit character or `'*'`; in particular never a newline. -/
theorem digitChar_ne_nl (n : Nat) : Nat.digitChar n ≠ '\n' := by
  rcases Nat.lt_or_ge n 16 with h | h
  · interval_cases n <;> decide
  · unfold Nat.digitChar
    iterate 16 rw [if_neg (by omega)]
    decide

theorem toDigitsCore_ne_nl (b : Nat) :
    ∀ (f n : Nat) (ds : List Char), (∀ c ∈ ds, c ≠ '\n') →
      ∀ c ∈ Nat.toDigitsCore b f n ds, c ≠ '\n' := by
  intro f
  induction f with
  | zero => intro n ds hds c hc; exact hds c hc
  | succ f ih =>
    intro n ds hds c hc
    unfold Nat.toDigitsCore at hc
    by_cases hz : n / b = 0
    · simp only [hz, if_pos rfl] at hc
      rcases List.mem_cons.1 hc with h1 | h1
      · rw [h1]; exact digitChar_ne_nl _
      · exact hds c h1
    · simp only [if_neg hz] at hc
      refine ih (n / b) (Nat.digitChar (n % b) :: ds) ?_ c hc
      intro x hx
      rcases List.mem_cons.1 hx with h1 | h1
      · rw [h1]; exact digitChar_ne_nl _
      · exact hds x h1

/-- The output of `Nat.repr` never contains a newline character. -/
theorem repr_ne_nl (n : Nat) : ∀ c ∈ (Nat.repr n).data, c ≠ '\n' := by
  intro c hc
  have : c ∈ Nat.toDigitsCore 10 (n + 1) n [] := by
    simpa [Nat.repr, Nat.toDigits, List.asString] using hc
  exact toDigitsCore_ne_nl 10 (n + 1) n [] (by simp) c this

/-- The display form of an address never contains a newline. -/
theorem ipToString_ne_nl (ip : IPv4) : ∀ c ∈ (ipToString ip).data, c ≠ '\n' := by
  intro c hc
  simp only [ipToString, String.data_append] at hc
  rcases List.mem_append.1 hc with h | h
  rcases List.mem_append.1 h with h | h
  rcases List.mem_append.1 h with h | h
  rcases List.mem_append.1 h with h | h
  rcases List.mem_append.1 h with h | h
  rcases List.mem_append.1 h with h | h
  · exact repr_ne_nl _ c h
  · simp at h; rw [h]; decide
  · exact repr_ne_nl _ c h
  · simp at h; rw [h]; decide
  · exact repr_ne_nl _ c h
  · simp at h; rw [h]; decide
  · exact repr_ne_nl _ c h

/-- Running `linesAux` on newline-free input yields the single accumulated line. -/
theorem linesAux_no_nl :
    ∀ (l : List Char), (∀ c ∈ l, c ≠ '\n') → ∀ (cur : List Char),
      (l = [] → cur ≠ []) → linesAux l cur = [String.mk (cur.reverse ++ l)] := by
  intro l
  induction l with
  | nil =>
    intro _ cur hcur
    have : cur.isEmpty = false := by
      cases cur with
      | nil => exact absurd rfl (hcur rfl)
      | cons c t => rfl
    simp [linesAux, this]
  | cons c rest ih =>
    intro hnl cur _
    have hc : (c == '\n') = false := by
      have := hnl c (List.mem_cons_self c rest)
      simpa using this
    have hrest : ∀ x ∈ rest, x ≠ '\n' := fun x hx => hnl x (List.mem_cons_of_mem c hx)
    rw [linesAux, if_neg (by simp [hc])]
    rw [ih hrest (c :: cur) (fun _ => List.cons_ne_nil c cur)]
    simp

/-- Applying `rustLines` to one nonempty newline-free line is that line. -/
theorem rustLines_single (s : String) (hnl : ∀ c ∈ s.data, c ≠ '\n')
    (hne : s.data ≠ []) : rustLines s = [s] := by
  unfold rustLines
  rw [linesAux_no_nl s.data hnl [] (fun h => absurd h hne)]
  cases s
  simp

/-! ## Claim theorems -/

/-- C7: `is_allowed` is the bidirectional case-insensitive
substring match over the configured patterns: true iff some pattern
matches; an empty pattern list denies every User-Agent; and the loop
yields the first matching pattern (`find?` semantics, the short-circuit
scan). -/
theorem c7_is_allowed_characterization (w : Whitelist) (ua : String) :
    (w.is_allowed ua = true ↔
      ∃ p ∈ w.patterns,
        (strContains (lowerStr ua) (lowerStr p)
          || strContains (lowerStr p) (lowerStr ua)) = true) ∧
    Whitelist.is_allowed ⟨[]⟩ ua = false ∧
    w.is_allowed ua = (w.patterns.find? (patternMatches (lowerStr ua))).isSome := by
  have hloop : ∀ (ps : List String) (u : String),
      allowLoop u ps = (ps.find? (patternMatches u)).isSome := by
    intro ps u
    induction ps with
    | nil => rfl
    | cons p rest ih =>
      by_cases h : patternMatches u p = true
      · simp [allowLoop, h, List.find?]
      · have h' : patternMatches u p = false := by
          cases hb : patternMatches u p
          · rfl
          · exact absurd hb h
        simp [allowLoop, h', List.find?, ih]
  refine ⟨?_, rfl, hloop w.patterns (lowerStr ua)⟩
  rw [Whitelist.is_allowed, hloop]
  rw [List.find?_isSome]
  constructor
  · rintro ⟨p, hp, hm⟩
    exact ⟨p, hp, by simpa [patternMatches] using hm⟩
  · rintro ⟨p, hp, hm⟩
    exact ⟨p, hp, by simpa [patternMatches] using hm⟩

/-- C10: With at least one configured pattern, the empty User-Agent
is always allowed: the empty string is a substring of every pattern, so
the bidirectional match accepts it at the first pattern. -/
theorem c10_empty_ua_allowed (w : Whitelist) (h : w.patterns ≠ []) :
    w.is_allowed "" = true := by
  rcases w with ⟨ps⟩
  cases ps with
  | nil => exact absurd rfl h
  | cons p rest =>
    have hempty : (lowerStr "").data = [] := rfl
    have hm : patternMatches (lowerStr "") p = true := by
      have : strContains (lowerStr p) (lowerStr "") = true := by
        unfold strContains
        rw [hempty]
        exact strContainsL_nil_needle _
      simp [patternMatches, this]
    simp [Whitelist.is_allowed, allowLoop, hm]

/-- Witness for C10 at a concrete whitelist. -/
theorem c10_empty_ua_allowed_witness :
    Whitelist.is_allowed ⟨["microsip"]⟩ "" = true :=
  c10_empty_ua_allowed ⟨["microsip"]⟩ (by decide)

/-- C5: Whenever the extractor produces a record, its `source_ip`
is exactly the network-layer address passed in; the payload content
never influences it. -/
theorem c5_source_ip_is_argument (data : List Nat) (a : IPv4) (r : SipRequest)
    (h : parse_udp_packet data a = some r) : r.source_ip = a := by
  unfold parse_udp_packet at h
  cases hd : utf8Decode data with
  | none => simp [hd] at h
  | some cs =>
    simp only [hd] at h
    cases hm : matchMethod cs with
    | none => simp [hm] at h
    | some method =>
      simp only [hm] at h
      by_cases hri : (!(method == "REGISTER") && !(method == "INVITE")) = true
      · rw [if_pos hri] at h; exact absurd h (by simp)
      · rw [if_neg hri] at h
        have := Option.some.inj h
        rw [← this]

/-- Witness for C5 at a concrete REGISTER payload. -/
theorem c5_source_ip_is_argument_witness :
    parse_udp_packet (asciiBytes "REGISTER a\r\nUser-Agent: X\r\n") ⟨9, 8, 7, 6⟩ =
      some ⟨⟨9, 8, 7, 6⟩, "X", "REGISTER"⟩ ∧
    (⟨⟨9, 8, 7, 6⟩, "X", "REGISTER"⟩ : SipRequest).source_ip = ⟨9, 8, 7, 6⟩ :=
  ⟨by decide,
   c5_source_ip_is_argument (asciiBytes "REGISTER a\r\nUser-Agent: X\r\n") ⟨9, 8, 7, 6⟩
     ⟨⟨9, 8, 7, 6⟩, "X", "REGISTER"⟩ (by decide)⟩

/-- No recognized method token contains a whitespace character. -/
theorem methodTokens_no_ws :
    ∀ t ∈ methodTokens, ∀ c ∈ t.data, isUniWs c = false := by decide

/-- At most one method token matches at the start of a text: the token
list is prefix-free once the mandatory trailing whitespace is taken
into account. -/
theorem startsMethodTok_unique (cs : List Char) (t1 t2 : String)
    (h1m : t1 ∈ methodTokens) (h2m : t2 ∈ methodTokens)
    (h1 : startsMethodTok cs t1 = true) (h2 : startsMethodTok cs t2 = true) :
    t1 = t2 := by
  unfold startsMethodTok at h1 h2
  rw [Bool.and_eq_true] at h1 h2
  have take1 : cs.take t1.data.length = t1.data := beq_iff_eq.1 h1.1
  have take2 : cs.take t2.data.length = t2.data := beq_iff_eq.1 h2.1
  have ws1 : wsAfter cs t1.data.length = true := h1.2
  have ws2 : wsAfter cs t2.data.length = true := h2.2
  have hget : ∀ n, wsAfter cs n = true → ∃ w, cs.get? n = some w ∧ isUniWs w = true := by
    intro n hw
    unfold wsAfter at hw
    cases hd : cs.drop n with
    | nil => rw [hd] at hw; exact absurd hw (by simp)
    | cons w rest =>
      rw [hd] at hw
      refine ⟨w, ?_, hw⟩
      have := List.get?_drop cs n 0
      rw [hd] at this
      simpa using this.symm
  have hstring : ∀ (u v : String), u.data = v.data → u = v := by
    intro u v huv
    exact congrArg String.mk huv
  rcases Nat.lt_trichotomy t1.data.length t2.data.length with hlt | heq | hgt
  · exfalso
    obtain ⟨w, hw, hws⟩ := hget _ ws1
    have : t2.data.get? t1.data.length = some w := by
      rw [← take2, List.get?_take hlt, hw]
    have hmem : w ∈ t2.data := List.get?_mem this
    have := methodTokens_no_ws t2 h2m w hmem
    rw [this] at hws
    exact Bool.false_ne_true hws
  · apply hstring
    rw [← take1, ← take2, heq]
  · exfalso
    obtain ⟨w, hw, hws⟩ := hget _ ws2
    have : t1.data.get? t2.data.length = some w := by
      rw [← take1, List.get?_take hgt, hw]
    have hmem : w ∈ t1.data := List.get?_mem this
    have := methodTokens_no_ws t1 h1m w hmem
    rw [this] at hws
    exact Bool.false_ne_true hws

/-- C6 (amended): The extractor yields a record exactly when the
payload decodes as UTF-8 text that starts with a recognized SIP method
token followed by whitespace and that token is REGISTER or INVITE
(binary payloads, non-SIP text and other methods give `none`, with no
error path); the `method` match is characterized by the prefix-plus-
whitespace test; and the `user_agent` field is the User-Agent regex
capture trimmed — where the regex's whitespace skip may cross line
endings, so a blank rest-of-line can yield a value taken from a later
line — or the literal `"Unknown"` when the regex does not match. -/
theorem c6_extractor_characterization (data : List Nat) (a : IPv4) :
    ((∃ r, parse_udp_packet data a = some r) ↔
      (∃ cs, utf8Decode data = some cs ∧
        ∃ t, matchMethod cs = some t ∧ (t = "REGISTER" ∨ t = "INVITE"))) ∧
    (∀ cs t, matchMethod cs = some t ↔
      (t ∈ methodTokens ∧ startsMethodTok cs t = true)) ∧
    (∀ cs r, utf8Decode data = some cs → parse_udp_packet data a = some r →
      r.user_agent = uaValue cs ∧ matchMethod cs = some r.method) := by
  have hmatch : ∀ (cs : List Char) (t : String), matchMethod cs = some t ↔
      (t ∈ methodTokens ∧ startsMethodTok cs t = true) := by
    intro cs t
    constructor
    · intro h
      exact ⟨List.mem_of_find?_eq_some h, List.find?_some h⟩
    · rintro ⟨hmem, hstart⟩
      have hsome : (methodTokens.find? (startsMethodTok cs)).isSome = true :=
        List.find?_isSome.2 ⟨t, hmem, hstart⟩
      cases hf : methodTokens.find? (startsMethodTok cs) with
      | none => rw [hf] at hsome; exact absurd hsome (by simp)
      | some t' =>
        have ht' : t' = t :=
          startsMethodTok_unique cs t' t (List.mem_of_find?_eq_some hf) hmem
            (List.find?_some hf) hstart
        rw [matchMethod, hf, ht']
  refine ⟨?_, hmatch, ?_⟩
  · constructor
    · rintro ⟨r, h⟩
      unfold parse_udp_packet at h
      cases hd : utf8Decode data with
      | none => simp [hd] at h
      | some cs =>
        simp only [hd] at h
        cases hm : matchMethod cs with
        | none => simp [hm] at h
        | some method =>
          simp only [hm] at h
          by_cases hri : (!(method == "REGISTER") && !(method == "INVITE")) = true
          · rw [if_pos hri] at h; exact absurd h (by simp)
          · refine ⟨cs, rfl, method, hm, ?_⟩
            have himp : ¬method = "REGISTER" → method = "INVITE" := by simpa using hri
            rcases eq_or_ne method "REGISTER" with he | he
            · exact Or.inl he
            · exact Or.inr (himp he)
    · rintro ⟨cs, hd, t, hm, hri⟩
      refine ⟨⟨a, uaValue cs, t⟩, ?_⟩
      unfold parse_udp_packet
      simp only [hd, hm]
      have hfalse : (!(t == "REGISTER") && !(t == "INVITE")) = false := by
        rcases hri with h | h <;> simp [h]
      rw [if_neg (by simp [hfalse])]
  · intro cs r hd h
    unfold parse_udp_packet at h
    simp only [hd] at h
    cases hm : matchMethod cs with
    | none => simp [hm] at h
    | some method =>
      simp only [hm] at h
      by_cases hri : (!(method == "REGISTER") && !(method == "INVITE")) = true
      · rw [if_pos hri] at h; exact absurd h (by simp)
      · rw [if_neg hri] at h
        have := Option.some.inj h
        rw [← this]
        exact ⟨rfl, rfl⟩

/-- Witness for C6 at concrete payloads: a REGISTER payload produces a
record, and the reverse direction is driven through the theorem. -/
theorem c6_extractor_characterization_witness :
    ∃ r, parse_udp_packet (asciiBytes "REGISTER a\r\nUser-Agent: X\r\n") ⟨7, 7, 7, 7⟩ = some r :=
  ((c6_extractor_characterization (asciiBytes "REGISTER a\r\nUser-Agent: X\r\n") ⟨7, 7, 7, 7⟩).1).mpr
    ⟨"REGISTER a\r\nUser-Agent: X\r\n".data, by decide, "REGISTER", by decide, Or.inl rfl⟩

/-- Counterexample for C6 as stated: on this payload the User-Agent
line's value is blank, but the code's regex skips the line ending and
captures `"Evil"` from the following line, so the produced
`user_agent` is neither the header line's trimmed value (`""`) nor
`"Unknown"`. -/
theorem c6_counterexample :
    parse_udp_packet (asciiBytes "REGISTER a\r\nUser-Agent: \r\nEvil\r\n") ⟨1, 2, 3, 4⟩ =
      some ⟨⟨1, 2, 3, 4⟩, "Evil", "REGISTER"⟩ ∧
    specUserAgentLineValue "REGISTER a\r\nUser-Agent: \r\nEvil\r\n" = some "" ∧
    ("Evil" : String) ≠ "" ∧ ("Evil" : String) ≠ "Unknown" :=
  ⟨by decide, by decide, by decide, by decide⟩

theorem byteAt_lt {d : List Nat} {i : Nat} (h : i < d.length) :
    byteAt d i = Except.ok (byteD d i) := by
  unfold byteAt byteD
  cases hg : d.get? i with
  | none =>
    rw [List.get?_eq_none] at hg
    omega
  | some b => rfl

theorem byteD_drop (l : List Nat) (s i : Nat) :
    byteD (l.drop s) i = byteD l (s + i) := by
  unfold byteD
  rw [List.get?_drop]

/-- For frames of at least 14 bytes the offset step never faults and
computes `ipStartOf`. -/
theorem ipStartStep_spec (data : List Nat) (h14 : 14 ≤ data.length) :
    ipStartStep data = Except.ok (ipStartOf data) := by
  have h12 : 12 < data.length := by omega
  have h13 : 13 < data.length := by omega
  have h0 : 0 < data.length := by omega
  unfold ipStartStep ipStartOf
  rw [if_pos h14, if_pos h14, byteAt_lt h12, byteAt_lt h13, byteAt_lt h0]
  by_cases he : ((byteD data 12) <<< 8) ||| (byteD data 13) = 0x0800
  · simp [he]
  · by_cases hv : (byteD data 0) &&& 0xF0 = 0x40
    · simp [he, hv]
    · simp [he, hv]

/-- After the offset is fixed, with enough bytes and a valid version
nibble, the decoder discards exactly when the frame does not extend
strictly past header-end + 8, and otherwise returns the source bytes
and the payload after header-end + 8. -/
theorem decodeAt_spec (data : List Nat) (s : Nat)
    (hlen : ¬ data.length < s + 20)
    (hver : (byteD data s) &&& 0xF0 = 0x40) :
    decodeAt data s =
      Except.ok (if data.length ≤ s + ((byteD data s) &&& 0x0F) * 4 + 8 then none
        else some (⟨byteD data (s + 12), byteD data (s + 13),
                    byteD data (s + 14), byteD data (s + 15)⟩,
                   data.drop (s + ((byteD data s) &&& 0x0F) * 4 + 8))) := by
  have hdlen : (data.drop s).length = data.length - s := List.length_drop s data
  have h0d : 0 < (data.drop s).length := by omega
  have h12d : 12 < (data.drop s).length := by omega
  have h13d : 13 < (data.drop s).length := by omega
  have h14d : 14 < (data.drop s).length := by omega
  have h15d : 15 < (data.drop s).length := by omega
  unfold decodeAt
  rw [if_neg hlen]
  simp only [byteAt_lt h0d, byteAt_lt h12d, byteAt_lt h13d, byteAt_lt h14d, byteAt_lt h15d,
    byteD_drop, Nat.add_zero]
  rw [if_neg (not_not_intro hver)]
  by_cases hc : data.length ≤ s + ((byteD data s) &&& 0x0F) * 4 + 8
  · rw [if_neg (by omega), if_pos hc]
  · rw [if_pos (by omega), if_neg hc]

/-- C4 (amended): Once the decoder has located a valid IPv4 header
(start offset `ipStartOf`, end `hdrEndOf` = start + IHL×4) inside a
sufficiently long frame, it discards the frame exactly when the frame
length is **at most** `hdrEndOf + 8` (so a frame that ends exactly at
the 8-byte UDP header boundary — an empty payload — is also
discarded); otherwise it returns the source address and the nonempty
payload after `hdrEndOf + 8`. -/
theorem c4_payload_skip (data : List Nat)
    (h20 : ¬ data.length < 20)
    (hlen : ¬ data.length < ipStartOf data + 20)
    (hver : (byteD data (ipStartOf data)) &&& 0xF0 = 0x40) :
    next_packet_decode data =
      Except.ok (if data.length ≤ hdrEndOf data + 8 then none
        else some (srcIpOf data, data.drop (hdrEndOf data + 8))) := by
  have h14 : 14 ≤ data.length := by omega
  unfold next_packet_decode
  rw [if_neg h20, ipStartStep_spec data h14]
  show decodeAt data (ipStartOf data) = _
  rw [decodeAt_spec data (ipStartOf data) hlen hver]
  unfold hdrEndOf srcIpOf
  simp only [byteD_drop]

/-- Witness for C4 on a 29-byte raw IPv4+UDP frame carrying one
payload byte. -/
theorem c4_payload_skip_witness :
    next_packet_decode
        [0x45, 0, 0, 28, 0, 0, 0, 0, 64, 17, 0, 0, 10, 0, 0, 1,
         10, 0, 0, 2, 0x13, 0xC4, 0x13, 0xC4, 0, 8, 0, 0, 82] =
      Except.ok (some (⟨10, 0, 0, 1⟩, [82])) := by
  rw [c4_payload_skip
    [0x45, 0, 0, 28, 0, 0, 0, 0, 64, 17, 0, 0, 10, 0, 0, 1,
     10, 0, 0, 2, 0x13, 0xC4, 0x13, 0xC4, 0, 8, 0, 0, 82]
    (by decide) (by decide) (by decide)]
  decide

/-- Counterexample for C4 as stated: this 28-byte frame (20-byte IPv4
header at offset 0 plus an 8-byte UDP header, empty payload) is **not**
shorter than header-end + 8, so the claim predicts a result with an
empty payload, yet the code discards it. -/
theorem c4_counterexample :
    ¬ (List.length [0x45, 0, 0, 28, 0, 0, 0, 0, 64, 17, 0, 0, 10, 0, 0, 1,
         10, 0, 0, 2, 0x13, 0xC4, 0x13, 0xC4, 0, 8, 0, 0] <
       hdrEndOf [0x45, 0, 0, 28, 0, 0, 0, 0, 64, 17, 0, 0, 10, 0, 0, 1,
         10, 0, 0, 2, 0x13, 0xC4, 0x13, 0xC4, 0, 8, 0, 0] + 8) ∧
    next_packet_decode [0x45, 0, 0, 28, 0, 0, 0, 0, 64, 17, 0, 0, 10, 0, 0, 1,
         10, 0, 0, 2, 0x13, 0xC4, 0x13, 0xC4, 0, 8, 0, 0] = Except.ok none :=
  ⟨by decide, by decide⟩

/-- C9: Every frame shorter than 20 bytes is discarded: the result
is `.ok none` — `.ok` certifies that no out-of-bounds read (modelled by
`.error`) happens, and the total model cannot panic. -/
theorem c9_short_frame_discarded (data : List Nat) (h : data.length < 20) :
    next_packet_decode data = Except.ok none := by
  unfold next_packet_decode
  rw [if_pos h]

/-- Witness for C9 at a 3-byte frame. -/
theorem c9_short_frame_discarded_witness :
    next_packet_decode [1, 2, 3] = Except.ok none :=
  c9_short_frame_discarded [1, 2, 3] (by decide)

/-- Each run of `is_blocked` appends only `-C` and `-L` invocations to the
history (it never mutates the chain). -/
theorem is_blocked_trace (o : Oracle) (m : IptablesManager) (ip : IPv4) (h : History) :
    ∃ l, (is_blocked o m ip h).2 = h ++ l ∧
      ∀ e ∈ l, e.1.head? = some "-C" ∨ e.1.head? = some "-L" := by
  cases hr1 : o h (checkArgs m (ipToString ip)) with
  | ok res =>
    by_cases hs : res.success = true
    · refine ⟨[(checkArgs m (ipToString ip), CmdOutcome.ok res)], ?_, ?_⟩
      · simp [is_blocked, runCmd, hr1, hs]
      · intro e he
        simp only [List.mem_singleton] at he
        rw [he]; left; rfl
    · cases hr2 : o (h ++ [(checkArgs m (ipToString ip), CmdOutcome.ok res)])
          (listArgsBlocked m) with
      | ok res2 =>
        refine ⟨[(checkArgs m (ipToString ip), CmdOutcome.ok res),
                 (listArgsBlocked m, CmdOutcome.ok res2)], ?_, ?_⟩
        · by_cases hs2 : res2.success = true
          · simp [is_blocked, runCmd, hr1, hs, hr2, hs2]
          · simp [is_blocked, runCmd, hr1, hs, hr2, hs2]
        · intro e he
          simp only [List.mem_cons, List.mem_singleton, List.not_mem_nil, or_false] at he
          rcases he with he | he
          · rw [he]; left; rfl
          · rw [he]; right; rfl
      | err e2 =>
        refine ⟨[(checkArgs m (ipToString ip), CmdOutcome.ok res),
                 (listArgsBlocked m, CmdOutcome.err e2)], ?_, ?_⟩
        · simp [is_blocked, runCmd, hr1, hs, hr2]
        · intro e he
          simp only [List.mem_cons, List.mem_singleton, List.not_mem_nil, or_false] at he
          rcases he with he | he
          · rw [he]; left; rfl
          · rw [he]; right; rfl
  | err e1 =>
    cases hr2 : o (h ++ [(checkArgs m (ipToString ip), CmdOutcome.err e1)])
        (listArgsBlocked m) with
    | ok res2 =>
      refine ⟨[(checkArgs m (ipToString ip), CmdOutcome.err e1),
               (listArgsBlocked m, CmdOutcome.ok res2)], ?_, ?_⟩
      · by_cases hs2 : res2.success = true
        · simp [is_blocked, runCmd, hr1, hr2, hs2]
        · simp [is_blocked, runCmd, hr1, hr2, hs2]
      · intro e he
        simp only [List.mem_cons, List.mem_singleton, List.not_mem_nil, or_false] at he
        rcases he with he | he
        · rw [he]; left; rfl
        · rw [he]; right; rfl
    | err e2 =>
      refine ⟨[(checkArgs m (ipToString ip), CmdOutcome.err e1),
               (listArgsBlocked m, CmdOutcome.err e2)], ?_, ?_⟩
      · simp [is_blocked, runCmd, hr1, hr2]
      · intro e he
        simp only [List.mem_cons, List.mem_singleton, List.not_mem_nil, or_false] at he
        rcases he with he | he
        · rw [he]; left; rfl
        · rw [he]; right; rfl

/-- Entries whose command is `-C` or `-L` are never successful deletes. -/
theorem no_delete_of_check_list {l : List (Cmd × CmdOutcome)}
    (hl : ∀ e ∈ l, e.1.head? = some "-C" ∨ e.1.head? = some "-L") :
    l.any isSuccDelete = false := by
  rw [← Bool.not_eq_true, List.any_eq_true]
  rintro ⟨e, he, hs⟩
  unfold isSuccDelete at hs
  rcases hl e he with h1 | h1 <;> simp [h1] at hs

/-- C1: When `is_blocked` already reports the desired state, both
reconciler mutations return success immediately with exactly
`is_blocked`'s own history, which contains no rule-mutating (`-A`/`-D`)
invocation: `block_ip` on a blocked IP and `unblock_ip` on an
unblocked IP are no-ops. -/
theorem c1_idempotent_no_op (o : Oracle) (m : IptablesManager) (ip : IPv4) (h : History) :
    ((is_blocked o m ip h).1 = true →
      block_ip o m ip h = (Except.ok (), (is_blocked o m ip h).2) ∧
      ∀ e ∈ (is_blocked o m ip h).2.drop h.length, cmdMutating e.1 = false) ∧
    ((is_blocked o m ip h).1 = false →
      unblock_ip o m ip h = (Except.ok (), (is_blocked o m ip h).2) ∧
      ∀ e ∈ (is_blocked o m ip h).2.drop h.length, cmdMutating e.1 = false) := by
  obtain ⟨l, hl, hcl⟩ := is_blocked_trace o m ip h
  have hmut : ∀ e ∈ (is_blocked o m ip h).2.drop h.length, cmdMutating e.1 = false := by
    intro e he
    rw [hl, List.drop_left] at he
    rcases hcl e he with h1 | h1 <;> simp [cmdMutating, h1]
  constructor
  · intro hb
    have heq : is_blocked o m ip h = (true, (is_blocked o m ip h).2) := by
      rw [← hb]
    refine ⟨?_, hmut⟩
    unfold block_ip
    rw [heq]
    rfl
  · intro hb
    have heq : is_blocked o m ip h = (false, (is_blocked o m ip h).2) := by
      rw [← hb]
    refine ⟨?_, hmut⟩
    unfold unblock_ip
    rw [heq]
    rfl

/-- Witness for C1: a pre-blocked IP makes `block_ip` a pure no-op, an
unblocked IP makes `unblock_ip` a pure no-op (in-memory firewall). -/
theorem c1_idempotent_no_op_witness :
    (is_blocked (goodOracle [ruleOf ⟨"INPUT", some 5060⟩ "1.2.3.4"]) ⟨"INPUT", some 5060⟩
        ⟨1, 2, 3, 4⟩ []).1 = true ∧
    block_ip (goodOracle [ruleOf ⟨"INPUT", some 5060⟩ "1.2.3.4"]) ⟨"INPUT", some 5060⟩
        ⟨1, 2, 3, 4⟩ [] =
      (Except.ok (), (is_blocked (goodOracle [ruleOf ⟨"INPUT", some 5060⟩ "1.2.3.4"])
        ⟨"INPUT", some 5060⟩ ⟨1, 2, 3, 4⟩ []).2) ∧
    (is_blocked (goodOracle []) ⟨"INPUT", some 5060⟩ ⟨1, 2, 3, 4⟩ []).1 = false ∧
    unblock_ip (goodOracle []) ⟨"INPUT", some 5060⟩ ⟨1, 2, 3, 4⟩ [] =
      (Except.ok (), (is_blocked (goodOracle []) ⟨"INPUT", some 5060⟩ ⟨1, 2, 3, 4⟩ []).2) :=
  ⟨by decide,
   ((c1_idempotent_no_op (goodOracle [ruleOf ⟨"INPUT", some 5060⟩ "1.2.3.4"])
      ⟨"INPUT", some 5060⟩ ⟨1, 2, 3, 4⟩ []).1 (by decide)).1,
   by decide,
   ((c1_idempotent_no_op (goodOracle []) ⟨"INPUT", some 5060⟩ ⟨1, 2, 3, 4⟩ []).2 (by decide)).1⟩

/-- The delete loop of `unblock_ip` issues only `-D` invocations and
reports success exactly when one of them succeeded. -/
theorem tryDeleteLines_trace (o : Oracle) (m : IptablesManager) (s : String) :
    ∀ (lines : List String) (h : History),
      ∃ l, (tryDeleteLines o m s lines h).2 = h ++ l ∧
        (∀ e ∈ l, e.1.head? = some "-D") ∧
        ((tryDeleteLines o m s lines h).1 = true ↔ l.any isSuccDelete = true) := by
  intro lines
  induction lines with
  | nil =>
    intro h
    exact ⟨[], by simp [tryDeleteLines], by simp, by simp [tryDeleteLines]⟩
  | cons line rest ih =>
    intro h
    by_cases hm : lineMatchesUnblock m s line = true
    · cases hsp : splitWsFirst line with
      | none =>
        obtain ⟨l, hl, hd, hiff⟩ := ih h
        exact ⟨l, by simpa [tryDeleteLines, hm, hsp] using hl, hd,
          by simpa [tryDeleteLines, hm, hsp] using hiff⟩
      | some tok =>
        cases hpu : parseU32 tok with
        | none =>
          obtain ⟨l, hl, hd, hiff⟩ := ih h
          exact ⟨l, by simpa [tryDeleteLines, hm, hsp, hpu] using hl, hd,
            by simpa [tryDeleteLines, hm, hsp, hpu] using hiff⟩
        | some num =>
          cases hout : o h ["-D", m.chain_name, Nat.repr num] with
          | ok res =>
            by_cases hs : res.success = true
            · refine ⟨[(["-D", m.chain_name, Nat.repr num], CmdOutcome.ok res)], ?_, ?_, ?_⟩
              · simp [tryDeleteLines, runCmd, hm, hsp, hpu, hout, hs]
              · intro e he
                simp only [List.mem_singleton] at he
                rw [he]; rfl
              · constructor
                · intro _
                  show ([(["-D", m.chain_name, Nat.repr num], CmdOutcome.ok res)].any
                    isSuccDelete) = true
                  simp [isSuccDelete, hs]
                · intro _
                  simp [tryDeleteLines, runCmd, hm, hsp, hpu, hout, hs]
            · obtain ⟨l, hl, hd, hiff⟩ :=
                ih (h ++ [(["-D", m.chain_name, Nat.repr num], CmdOutcome.ok res)])
              refine ⟨(["-D", m.chain_name, Nat.repr num], CmdOutcome.ok res) :: l, ?_, ?_, ?_⟩
              · rw [show (tryDeleteLines o m s (line :: rest) h).2 =
                    (tryDeleteLines o m s rest
                      (h ++ [(["-D", m.chain_name, Nat.repr num], CmdOutcome.ok res)])).2 by
                    simp [tryDeleteLines, runCmd, hm, hsp, hpu, hout, hs]]
                rw [hl]
                simp
              · intro e he
                rcases List.mem_cons.1 he with he1 | he1
                · rw [he1]; rfl
                · exact hd e he1
              · rw [show (tryDeleteLines o m s (line :: rest) h).1 =
                    (tryDeleteLines o m s rest
                      (h ++ [(["-D", m.chain_name, Nat.repr num], CmdOutcome.ok res)])).1 by
                    simp [tryDeleteLines, runCmd, hm, hsp, hpu, hout, hs]]
                rw [hiff]
                simp [isSuccDelete, hs]
          | err er =>
            obtain ⟨l, hl, hd, hiff⟩ :=
              ih (h ++ [(["-D", m.chain_name, Nat.repr num], CmdOutcome.err er)])
            refine ⟨(["-D", m.chain_name, Nat.repr num], CmdOutcome.err er) :: l, ?_, ?_, ?_⟩
            · rw [show (tryDeleteLines o m s (line :: rest) h).2 =
                  (tryDeleteLines o m s rest
                    (h ++ [(["-D", m.chain_name, Nat.repr num], CmdOutcome.err er)])).2 by
                  simp [tryDeleteLines, runCmd, hm, hsp, hpu, hout]]
              rw [hl]
              simp
            · intro e he
              rcases List.mem_cons.1 he with he1 | he1
              · rw [he1]; rfl
              · exact hd e he1
            · rw [show (tryDeleteLines o m s (line :: rest) h).1 =
                  (tryDeleteLines o m s rest
                    (h ++ [(["-D", m.chain_name, Nat.repr num], CmdOutcome.err er)])).1 by
                  simp [tryDeleteLines, runCmd, hm, hsp, hpu, hout]]
              rw [hiff]
              simp [isSuccDelete]
    · obtain ⟨l, hl, hd, hiff⟩ := ih h
      exact ⟨l, by simpa [tryDeleteLines, hm] using hl, hd,
        by simpa [tryDeleteLines, hm] using hiff⟩

/-- C3: For an IP that `is_blocked` reports as blocked,
`unblock_ip` returns success exactly when one of the deletion
invocations it issued (line-number deletions from the listing, or the
fall-back deletion by rule specification) succeeded — equivalently, it
returns an error exactly when no deletion path succeeded. -/
theorem c3_unblock_ok_iff_delete (o : Oracle) (m : IptablesManager) (ip : IPv4)
    (h : History) (hb : (is_blocked o m ip h).1 = true) :
    (unblock_ip o m ip h).1 = Except.ok () ↔
      ((unblock_ip o m ip h).2.drop h.length).any isSuccDelete = true := by
  obtain ⟨l, hl, hcl⟩ := is_blocked_trace o m ip h
  have hlany : l.any isSuccDelete = false := no_delete_of_check_list hcl
  have heq : is_blocked o m ip h = (true, h ++ l) := by
    rw [← hb, ← hl]
  have hLfalse : ∀ c : CmdOutcome, isSuccDelete (listArgsUnblock m, c) = false := by
    intro c; rfl
  unfold unblock_ip
  rw [heq]
  simp only [Bool.not_true, Bool.false_eq_true, if_false]
  cases hr : o (h ++ l) (listArgsUnblock m) with
  | err e =>
    simp only [runCmd, hr]
    constructor
    · intro hok; exact Except.noConfusion hok
    · intro hany
      exfalso
      simp only [List.append_assoc] at hany
      rw [List.drop_left] at hany
      simp only [List.any_append, hlany, List.any_cons, List.any_nil, hLfalse] at hany
      simp at hany
  | ok res =>
    cases hrs : res.success with
    | false =>
      simp only [runCmd, hr, hrs, Bool.not_false, if_true]
      constructor
      · intro hok; exact Except.noConfusion hok
      · intro hany
        exfalso
        simp only [List.append_assoc] at hany
        rw [List.drop_left] at hany
        simp only [List.any_append, hlany, List.any_cons, List.any_nil, hLfalse] at hany
        simp at hany
    | true =>
      simp only [runCmd, hr, hrs, Bool.not_true, Bool.false_eq_true, if_false]
      obtain ⟨lt, hlt, hdt, hifft⟩ := tryDeleteLines_trace o m (ipToString ip)
        (rustLines res.stdout) ((h ++ l) ++ [(listArgsUnblock m, CmdOutcome.ok res)])
      cases hT : tryDeleteLines o m (ipToString ip) (rustLines res.stdout)
          ((h ++ l) ++ [(listArgsUnblock m, CmdOutcome.ok res)]) with
      | mk deleted h3 =>
        rw [hT] at hlt hifft
        simp only at hlt hifft
        cases deleted with
        | true =>
          rw [if_pos rfl]
          constructor
          · intro _
            rw [hlt]
            simp only [List.append_assoc]
            rw [List.drop_left]
            have hltany : lt.any isSuccDelete = true := hifft.1 rfl
            simp only [List.any_append, hlany, List.any_cons, List.any_nil, hLfalse, hltany]
            simp
          · intro _; trivial
        | false =>
          simp only [Bool.false_eq_true, if_false]
          have hltany : lt.any isSuccDelete = false := by
            rw [← Bool.not_eq_true]
            intro hc
            exact Bool.false_ne_true (hifft.2 hc)
          unfold fallbackSpecDelete
          cases hfs : o h3 (deleteSpecArgs m (ipToString ip)) with
          | ok res2 =>
            cases hrs2 : res2.success with
            | true =>
              simp only [runCmd, hfs, hrs2, if_true]
              constructor
              · intro _
                rw [hlt]
                simp only [List.append_assoc]
                rw [List.drop_left]
                have hDtrue : isSuccDelete (deleteSpecArgs m (ipToString ip),
                    CmdOutcome.ok res2) = true := by
                  simp [isSuccDelete, deleteSpecArgs, hrs2]
                simp only [List.any_append, hlany, List.any_cons, List.any_nil, hLfalse,
                  hltany, hDtrue]
                simp
              · intro _; trivial
            | false =>
              simp only [runCmd, hfs, hrs2, Bool.false_eq_true, if_false]
              constructor
              · intro hok; exact Except.noConfusion hok
              · intro hany
                exfalso
                rw [hlt] at hany
                simp only [List.append_assoc] at hany
                rw [List.drop_left] at hany
                have hDfalse : isSuccDelete (deleteSpecArgs m (ipToString ip),
                    CmdOutcome.ok res2) = false := by
                  simp [isSuccDelete, deleteSpecArgs, hrs2]
                simp only [List.any_append, hlany, List.any_cons, List.any_nil, hLfalse,
                  hltany, hDfalse] at hany
                simp at hany
          | err e2 =>
            simp only [runCmd, hfs]
            constructor
            · intro hok; exact Except.noConfusion hok
            · intro hany
              exfalso
              rw [hlt] at hany
              simp only [List.append_assoc] at hany
              rw [List.drop_left] at hany
              have hDfalse : isSuccDelete (deleteSpecArgs m (ipToString ip),
                  CmdOutcome.err e2) = false := by
                simp [isSuccDelete, deleteSpecArgs]
              simp only [List.any_append, hlany, List.any_cons, List.any_nil, hLfalse,
                hltany, hDfalse] at hany
              simp at hany

/-- Witness for C3: over the in-memory firewall with one matching rule,
the IP is blocked, and `unblock_ip` succeeds with a successful deletion
in its trace. -/
theorem c3_unblock_ok_iff_delete_witness :
    (is_blocked (goodOracle [ruleOf ⟨"INPUT", some 5060⟩ "1.2.3.4"]) ⟨"INPUT", some 5060⟩
        ⟨1, 2, 3, 4⟩ []).1 = true ∧
    ((unblock_ip (goodOracle [ruleOf ⟨"INPUT", some 5060⟩ "1.2.3.4"]) ⟨"INPUT", some 5060⟩
        ⟨1, 2, 3, 4⟩ []).1 = Except.ok () ↔
      ((unblock_ip (goodOracle [ruleOf ⟨"INPUT", some 5060⟩ "1.2.3.4"]) ⟨"INPUT", some 5060⟩
        ⟨1, 2, 3, 4⟩ []).2.drop 0).any isSuccDelete = true) ∧
    ((unblock_ip (goodOracle [ruleOf ⟨"INPUT", some 5060⟩ "1.2.3.4"]) ⟨"INPUT", some 5060⟩
        ⟨1, 2, 3, 4⟩ []).2.drop 0).any isSuccDelete = true :=
  ⟨by decide,
   c3_unblock_ok_iff_delete (goodOracle [ruleOf ⟨"INPUT", some 5060⟩ "1.2.3.4"])
     ⟨"INPUT", some 5060⟩ ⟨1, 2, 3, 4⟩ [] (by decide),
   by decide⟩

/-- C8: When the IP is not yet blocked, `block_ip` succeeds exactly
when the `-A` append invocation reports success — independently of the
post-condition re-check (a failed re-check is logged only); on a
non-zero exit it returns the error carrying the tool's captured
stderr/stdout, and on an invocation error it returns the error carrying
that diagnostic. -/
theorem c8_block_error_semantics (o : Oracle) (m : IptablesManager) (ip : IPv4)
    (h : History) (hb : (is_blocked o m ip h).1 = false) :
    ((block_ip o m ip h).1 = Except.ok () ↔
      (∃ r, o (is_blocked o m ip h).2 (appendArgs m (ipToString ip)) = CmdOutcome.ok r ∧
        r.success = true)) ∧
    (∀ r, o (is_blocked o m ip h).2 (appendArgs m (ipToString ip)) = CmdOutcome.ok r →
      r.success = false →
      (block_ip o m ip h).1 = Except.error ("封禁 IP " ++ ipToString ip ++ " 失败: stderr="
        ++ r.stderr ++ ", stdout=" ++ r.stdout)) ∧
    (∀ e, o (is_blocked o m ip h).2 (appendArgs m (ipToString ip)) = CmdOutcome.err e →
      (block_ip o m ip h).1 = Except.error ("执行 iptables 命令失败: " ++ e)) := by
  have heq : is_blocked o m ip h = (false, (is_blocked o m ip h).2) := by
    rw [← hb]
  unfold block_ip
  rw [heq]
  cases ha : o (is_blocked o m ip h).2 (appendArgs m (ipToString ip)) with
  | ok r =>
    by_cases hs : r.success = true
    · simp only [runCmd, ha, hs, if_true]
      refine ⟨?_, ?_, ?_⟩
      · rcases hpost : is_blocked o m ip ((is_blocked o m ip h).2
            ++ [(appendArgs m (ipToString ip), CmdOutcome.ok r)]) with ⟨b2, h3⟩
        constructor
        · intro _
          exact ⟨r, rfl, hs⟩
        · intro _
          cases b2 <;> simp
      · intro r' hr' hs'
        have : r = r' := CmdOutcome.ok.inj hr'
        rw [← this] at hs'
        rw [hs] at hs'
        exact absurd hs' (by simp)
      · intro e he
        exact absurd he (by simp)
    · have hs' : r.success = false := by
        cases hx : r.success
        · rfl
        · exact absurd hx hs
      simp only [runCmd, ha, hs', Bool.false_eq_true, if_false]
      refine ⟨?_, ?_, ?_⟩
      · constructor
        · intro hok; exact Except.noConfusion hok
        · rintro ⟨r', hr', hsucc⟩
          have : r = r' := CmdOutcome.ok.inj hr'
          rw [← this] at hsucc
          rw [hs'] at hsucc
          exact absurd hsucc (by simp)
      · intro r' hr' _
        have : r = r' := CmdOutcome.ok.inj hr'
        rw [← this]
      · intro e he
        exact absurd he (by simp)
  | err e =>
    simp only [runCmd, ha]
    refine ⟨?_, ?_, ?_⟩
    · constructor
      · intro hok; exact Except.noConfusion hok
      · rintro ⟨r', hr', _⟩
        exact absurd hr' (by simp)
    · intro r' hr' _
      exact absurd hr' (by simp)
    · intro e' he'
      have : e = e' := CmdOutcome.err.inj he'
      rw [← this]
      rfl

theorem tableAt_append (init : List Cmd) (h l : History) :
    tableAt init (h ++ l) = tableAt (tableAt init h) l := by
  unfold tableAt
  rw [List.foldl_append]

/-- The table never contains the empty-needle corner: `strContainsL` of
a nonempty needle forces a nonempty haystack. -/
theorem hay_ne_nil {n hay : List Char} (h : strContainsL n hay = true) (hn : n ≠ []) :
    hay ≠ [] := by
  intro he
  rw [he] at h
  unfold strContainsL at h
  cases n with
  | nil => exact hn rfl
  | cons c t => exact absurd h (by simp [List.isEmpty])

/-- Running `is_blocked` over the conforming firewall with an empty table: the
`-C` probe fails, the listing is empty, the verdict is `false`. -/
theorem isBlocked_goodOracle_empty (init : List Cmd) (m : IptablesManager) (ip : IPv4)
    (h : History) (htab : tableAt init h = []) :
    is_blocked (goodOracle init) m ip h =
      (false, h ++ [(checkArgs m (ipToString ip), CmdOutcome.ok ⟨false, "", ""⟩),
                    (listArgsBlocked m, CmdOutcome.ok ⟨true, "", ""⟩)]) := by
  have hc : goodOracle init h (checkArgs m (ipToString ip)) = CmdOutcome.ok ⟨false, "", ""⟩ := by
    show (if (tableAt init h).contains (ruleOf m (ipToString ip)) = true
      then CmdOutcome.ok ⟨true, "", ""⟩ else CmdOutcome.ok ⟨false, "", ""⟩) = _
    rw [htab]
    rfl
  have htab1 : tableAt init (h ++ [(checkArgs m (ipToString ip),
      CmdOutcome.ok ⟨false, "", ""⟩)]) = [] := by
    rw [tableAt_append, htab]
    rfl
  have hl : goodOracle init (h ++ [(checkArgs m (ipToString ip),
      CmdOutcome.ok ⟨false, "", ""⟩)]) (listArgsBlocked m) = CmdOutcome.ok ⟨true, "", ""⟩ := by
    show CmdOutcome.ok ⟨true, listingOf (tableAt init (h ++ [(checkArgs m (ipToString ip),
      CmdOutcome.ok ⟨false, "", ""⟩)])) m.chain_name, ""⟩ = _
    rw [htab1]
    rfl
  simp only [is_blocked, runCmd, hc, hl]
  simp [rustLines, linesAux, List.append_assoc]

/-- Running `is_blocked` over the conforming firewall when the exact rule is
present: the `-C` probe succeeds immediately. -/
theorem isBlocked_goodOracle_hit (init : List Cmd) (m : IptablesManager) (ip : IPv4)
    (h : History) (htab : (tableAt init h).contains (ruleOf m (ipToString ip)) = true) :
    is_blocked (goodOracle init) m ip h =
      (true, h ++ [(checkArgs m (ipToString ip), CmdOutcome.ok ⟨true, "", ""⟩)]) := by
  have hc : goodOracle init h (checkArgs m (ipToString ip)) = CmdOutcome.ok ⟨true, "", ""⟩ := by
    show (if (tableAt init h).contains (ruleOf m (ipToString ip)) = true
      then CmdOutcome.ok ⟨true, "", ""⟩ else CmdOutcome.ok ⟨false, "", ""⟩) = _
    rw [htab]
    rfl
  simp only [is_blocked, runCmd, hc]
  simp

/-- Block on an empty conforming firewall: success, and the table then
holds exactly the one appended rule. -/
theorem block_ip_goodOracle_empty (init : List Cmd) (m : IptablesManager) (ip : IPv4)
    (h : History) (htab : tableAt init h = []) :
    (block_ip (goodOracle init) m ip h).1 = Except.ok () ∧
    tableAt init (block_ip (goodOracle init) m ip h).2 = [ruleOf m (ipToString ip)] := by
  have happ : goodOracle init (h ++ [(checkArgs m (ipToString ip),
      CmdOutcome.ok ⟨false, "", ""⟩), (listArgsBlocked m, CmdOutcome.ok ⟨true, "", ""⟩)])
      (appendArgs m (ipToString ip)) = CmdOutcome.ok ⟨true, "", ""⟩ := rfl
  have htab3 : tableAt init ((h ++ [(checkArgs m (ipToString ip),
      CmdOutcome.ok ⟨false, "", ""⟩), (listArgsBlocked m, CmdOutcome.ok ⟨true, "", ""⟩)])
      ++ [(appendArgs m (ipToString ip), CmdOutcome.ok ⟨true, "", ""⟩)]) =
      [ruleOf m (ipToString ip)] := by
    rw [tableAt_append, tableAt_append, htab]
    rfl
  have hcont : (tableAt init ((h ++ [(checkArgs m (ipToString ip),
      CmdOutcome.ok ⟨false, "", ""⟩), (listArgsBlocked m, CmdOutcome.ok ⟨true, "", ""⟩)])
      ++ [(appendArgs m (ipToString ip), CmdOutcome.ok ⟨true, "", ""⟩)])).contains
      (ruleOf m (ipToString ip)) = true := by
    rw [htab3]
    simp
  have hval : block_ip (goodOracle init) m ip h =
      (Except.ok (), ((h ++ [(checkArgs m (ipToString ip), CmdOutcome.ok ⟨false, "", ""⟩),
          (listArgsBlocked m, CmdOutcome.ok ⟨true, "", ""⟩)])
        ++ [(appendArgs m (ipToString ip), CmdOutcome.ok ⟨true, "", ""⟩)])
        ++ [(checkArgs m (ipToString ip), CmdOutcome.ok ⟨true, "", ""⟩)]) := by
    unfold block_ip
    rw [isBlocked_goodOracle_empty init m ip h htab]
    simp only [Bool.false_eq_true, if_false, runCmd, happ]
    rw [isBlocked_goodOracle_hit init m ip _ hcont]
    simp
  rw [hval]
  refine ⟨rfl, ?_⟩
  rw [tableAt_append, htab3]
  rfl

theorem strContainsL_refl (n : List Char) : strContainsL n n = true :=
  strContainsL_take (by simp)

theorem chainRules_single (m : IptablesManager) (s : String) :
    chainRules [ruleOf m s] m.chain_name = [ruleOf m s] := by
  simp [chainRules, ruleOf]

theorem listingOf_single (m : IptablesManager) (s : String) :
    listingOf [ruleOf m s] m.chain_name = renderRule 1 (ruleOf m s) := by
  unfold listingOf
  rw [chainRules_single]
  rfl

/-- The facts the `unblock_ip` scan needs about the one listed line of
the conforming firewall: the line matches, its first token is the line
number 1, it contains no newline, and it is nonempty. -/
theorem lineFacts (m : IptablesManager) (ip : IPv4) :
    lineMatchesUnblock m (ipToString ip) (renderRule 1 (ruleOf m (ipToString ip))) = true ∧
    splitWsFirst (renderRule 1 (ruleOf m (ipToString ip))) = some "1" ∧
    (∀ c ∈ (renderRule 1 (ruleOf m (ipToString ip))).data, c ≠ '\n') ∧
    (renderRule 1 (ruleOf m (ipToString ip))).data ≠ [] := by
  rcases m with ⟨ch, _ | p⟩
  · have ha : strContains (renderRule 1 (ruleOf ⟨ch, none⟩ (ipToString ip)))
        (ipToString ip) = true := by
      show strContainsL (ipToString ip).data ((Nat.repr 1).data ++ (" ".data ++
        ("DROP".data ++ (" all -- ".data ++ (ipToString ip).data)))) = true
      apply strContainsL_append_left
      apply strContainsL_append_left
      apply strContainsL_append_left
      apply strContainsL_append_left
      exact strContainsL_refl _
    have hb : strContains (renderRule 1 (ruleOf ⟨ch, none⟩ (ipToString ip))) "DROP" = true := by
      show strContainsL "DROP".data ((Nat.repr 1).data ++ (" ".data ++
        ("DROP".data ++ (" all -- ".data ++ (ipToString ip).data)))) = true
      apply strContainsL_append_left
      apply strContainsL_append_left
      exact strContainsL_here _ _
    refine ⟨?_, rfl, ?_, ?_⟩
    · simp [lineMatchesUnblock, ha, hb]
    · intro c hc
      have hc' : c ∈ (Nat.repr 1).data ++ (" ".data ++ ("DROP".data ++
          (" all -- ".data ++ (ipToString ip).data))) := hc
      simp only [List.mem_append] at hc'
      rcases hc' with hx | hx | hx | hx | hx
      · exact repr_ne_nl 1 c hx
      · exact (by decide : ∀ x ∈ " ".data, x ≠ '\n') c hx
      · exact (by decide : ∀ x ∈ "DROP".data, x ≠ '\n') c hx
      · exact (by decide : ∀ x ∈ " all -- ".data, x ≠ '\n') c hx
      · exact ipToString_ne_nl ip c hx
    · exact hay_ne_nil hb (by decide)
  · have ha : strContains (renderRule 1 (ruleOf ⟨ch, some p⟩ (ipToString ip)))
        (ipToString ip) = true := by
      show strContainsL (ipToString ip).data ((Nat.repr 1).data ++ (" ".data ++
        ("DROP".data ++ (" udp -- ".data ++ ((ipToString ip).data ++
          (" udp ".data ++ ("dpt:".data ++ (Nat.repr p).data))))))) = true
      apply strContainsL_append_left
      apply strContainsL_append_left
      apply strContainsL_append_left
      apply strContainsL_append_left
      exact strContainsL_here _ _
    have hb : strContains (renderRule 1 (ruleOf ⟨ch, some p⟩ (ipToString ip))) "DROP" = true := by
      show strContainsL "DROP".data ((Nat.repr 1).data ++ (" ".data ++
        ("DROP".data ++ (" udp -- ".data ++ ((ipToString ip).data ++
          (" udp ".data ++ ("dpt:".data ++ (Nat.repr p).data))))))) = true
      apply strContainsL_append_left
      apply strContainsL_append_left
      exact strContainsL_here _ _
    have hp : strContains (renderRule 1 (ruleOf ⟨ch, some p⟩ (ipToString ip)))
        (Nat.repr p) = true := by
      show strContainsL (Nat.repr p).data ((Nat.repr 1).data ++ (" ".data ++
        ("DROP".data ++ (" udp -- ".data ++ ((ipToString ip).data ++
          (" udp ".data ++ ("dpt:".data ++ (Nat.repr p).data))))))) = true
      apply strContainsL_append_left
      apply strContainsL_append_left
      apply strContainsL_append_left
      apply strContainsL_append_left
      apply strContainsL_append_left
      apply strContainsL_append_left
      apply strContainsL_append_left
      exact strContainsL_refl _
    refine ⟨?_, rfl, ?_, ?_⟩
    · simp [lineMatchesUnblock, ha, hb, hp]
    · intro c hc
      have hc' : c ∈ (Nat.repr 1).data ++ (" ".data ++ ("DROP".data ++
          (" udp -- ".data ++ ((ipToString ip).data ++ (" udp ".data ++
            ("dpt:".data ++ (Nat.repr p).data)))))) := hc
      simp only [List.mem_append] at hc'
      rcases hc' with hx | hx | hx | hx | hx | hx | hx | hx
      · exact repr_ne_nl 1 c hx
      · exact (by decide : ∀ x ∈ " ".data, x ≠ '\n') c hx
      · exact (by decide : ∀ x ∈ "DROP".data, x ≠ '\n') c hx
      · exact (by decide : ∀ x ∈ " udp -- ".data, x ≠ '\n') c hx
      · exact ipToString_ne_nl ip c hx
      · exact (by decide : ∀ x ∈ " udp ".data, x ≠ '\n') c hx
      · exact (by decide : ∀ x ∈ "dpt:".data, x ≠ '\n') c hx
      · exact repr_ne_nl p c hx
    · exact hay_ne_nil hb (by decide)

/-- On a single matching line whose token parses to an existing line
number, the delete loop issues one `-D` that the conforming firewall
accepts. -/
theorem tryDeleteLines_goodOracle_single (init : List Cmd) (m : IptablesManager)
    (s : String) (line : String) (h : History)
    (hmatch : lineMatchesUnblock m s line = true)
    (hsplit : splitWsFirst line = some "1")
    (hex : lineExists (tableAt init h) m.chain_name 1 = true) :
    tryDeleteLines (goodOracle init) m s [line] h =
      (true, h ++ [(["-D", m.chain_name, Nat.repr 1], CmdOutcome.ok ⟨true, "", ""⟩)]) := by
  have hdel : goodOracle init h ["-D", m.chain_name, Nat.repr 1] = CmdOutcome.ok ⟨true, "", ""⟩ := by
    have hform : goodOracle init h ["-D", m.chain_name, Nat.repr 1] =
        (if lineExists (tableAt init h) m.chain_name 1 = true then CmdOutcome.ok ⟨true, "", ""⟩
         else CmdOutcome.ok ⟨false, "", ""⟩) := rfl
    rw [hform, if_pos hex]
  have hp : parseU32 "1" = some 1 := rfl
  unfold tryDeleteLines
  rw [if_pos hmatch]
  simp only [hsplit, hp, runCmd, hdel]
  simp

/-- Unblock on a conforming firewall holding exactly the one rule:
success, by line-number deletion, leaving the table empty. -/
theorem unblock_ip_goodOracle_single (init : List Cmd) (m : IptablesManager) (ip : IPv4)
    (h : History) (htab : tableAt init h = [ruleOf m (ipToString ip)]) :
    (unblock_ip (goodOracle init) m ip h).1 = Except.ok () ∧
    tableAt init (unblock_ip (goodOracle init) m ip h).2 = [] := by
  obtain ⟨hma, hsp, hnl, hne⟩ := lineFacts m ip
  have hcont : (tableAt init h).contains (ruleOf m (ipToString ip)) = true := by
    rw [htab]; simp
  have htab1 : tableAt init (h ++ [(checkArgs m (ipToString ip),
      CmdOutcome.ok ⟨true, "", ""⟩)]) = [ruleOf m (ipToString ip)] := by
    rw [tableAt_append, htab]
    rfl
  have hlist : goodOracle init (h ++ [(checkArgs m (ipToString ip),
      CmdOutcome.ok ⟨true, "", ""⟩)]) (listArgsUnblock m) =
      CmdOutcome.ok ⟨true, renderRule 1 (ruleOf m (ipToString ip)), ""⟩ := by
    show CmdOutcome.ok ⟨true, listingOf (tableAt init (h ++ [(checkArgs m (ipToString ip),
      CmdOutcome.ok ⟨true, "", ""⟩)])) m.chain_name, ""⟩ = _
    rw [htab1, listingOf_single]
  have htab2 : tableAt init ((h ++ [(checkArgs m (ipToString ip),
      CmdOutcome.ok ⟨true, "", ""⟩)]) ++ [(listArgsUnblock m,
      CmdOutcome.ok ⟨true, renderRule 1 (ruleOf m (ipToString ip)), ""⟩)]) =
      [ruleOf m (ipToString ip)] := by
    rw [tableAt_append, htab1]
    rfl
  have hex : lineExists (tableAt init ((h ++ [(checkArgs m (ipToString ip),
      CmdOutcome.ok ⟨true, "", ""⟩)]) ++ [(listArgsUnblock m,
      CmdOutcome.ok ⟨true, renderRule 1 (ruleOf m (ipToString ip)), ""⟩)]))
      m.chain_name 1 = true := by
    rw [htab2]
    unfold lineExists
    rw [chainRules_single]
    rfl
  have hrl : rustLines (renderRule 1 (ruleOf m (ipToString ip))) =
      [renderRule 1 (ruleOf m (ipToString ip))] := rustLines_single _ hnl hne
  have htd := tryDeleteLines_goodOracle_single init m (ipToString ip)
    (renderRule 1 (ruleOf m (ipToString ip)))
    ((h ++ [(checkArgs m (ipToString ip), CmdOutcome.ok ⟨true, "", ""⟩)])
      ++ [(listArgsUnblock m, CmdOutcome.ok ⟨true, renderRule 1 (ruleOf m (ipToString ip)), ""⟩)])
    hma hsp hex
  have hval : unblock_ip (goodOracle init) m ip h =
      (Except.ok (), ((h ++ [(checkArgs m (ipToString ip), CmdOutcome.ok ⟨true, "", ""⟩)])
        ++ [(listArgsUnblock m, CmdOutcome.ok ⟨true, renderRule 1 (ruleOf m (ipToString ip)), ""⟩)])
        ++ [(["-D", m.chain_name, Nat.repr 1], CmdOutcome.ok ⟨true, "", ""⟩)]) := by
    unfold unblock_ip
    rw [isBlocked_goodOracle_hit init m ip h hcont]
    simp only [Bool.not_true, Bool.false_eq_true, if_false, runCmd, hlist]
    simp only [hrl, htd]
    simp
  rw [hval]
  refine ⟨rfl, ?_⟩
  rw [tableAt_append, htab2]
  have : applyCmd [ruleOf m (ipToString ip)] ["-D", m.chain_name, Nat.repr 1] = [] := by
    have hform : applyCmd [ruleOf m (ipToString ip)] ["-D", m.chain_name, Nat.repr 1] =
        deleteLine [ruleOf m (ipToString ip)] m.chain_name 1 := rfl
    rw [hform]
    simp [deleteLine, ruleOf]
  unfold tableAt
  simp only [List.foldl_cons, List.foldl_nil]
  exact this

/-- C2: Round-trip against a conforming firewall (the in-memory
rule table of the spec's Firewall Control Port), starting empty: for
any valid address and any chain/port configuration, `block_ip`
succeeds and the next `is_blocked` reports true; then `unblock_ip`
succeeds and the next `is_blocked` reports false. -/
theorem c2_roundtrip (m : IptablesManager) (ip : IPv4) :
    (block_ip (goodOracle []) m ip []).1 = Except.ok () ∧
    (is_blocked (goodOracle []) m ip (block_ip (goodOracle []) m ip []).2).1 = true ∧
    (unblock_ip (goodOracle []) m ip (block_ip (goodOracle []) m ip []).2).1 = Except.ok () ∧
    (is_blocked (goodOracle []) m ip
      (unblock_ip (goodOracle []) m ip (block_ip (goodOracle []) m ip []).2).2).1 = false := by
  obtain ⟨hb1, hbt⟩ := block_ip_goodOracle_empty [] m ip [] rfl
  have hcont : (tableAt [] (block_ip (goodOracle []) m ip []).2).contains
      (ruleOf m (ipToString ip)) = true := by
    rw [hbt]; simp
  obtain ⟨hu1, hut⟩ := unblock_ip_goodOracle_single [] m ip
    (block_ip (goodOracle []) m ip []).2 hbt
  refine ⟨hb1, ?_, hu1, ?_⟩
  · rw [isBlocked_goodOracle_hit [] m ip _ hcont]
  · rw [isBlocked_goodOracle_empty [] m ip _ hut]

/-- Witness for C8: with an oracle whose `-A` reports success but whose
checks always fail, the IP reads as unblocked, `block_ip` returns `Ok`,
and the post-condition re-check still reports unblocked (the warning
path). -/
theorem c8_block_error_semantics_witness :
    (is_blocked failAppendOracle ⟨"INPUT", some 5060⟩ ⟨1, 2, 3, 4⟩ []).1 = false ∧
    (block_ip failAppendOracle ⟨"INPUT", some 5060⟩ ⟨1, 2, 3, 4⟩ []).1 = Except.ok () ∧
    (is_blocked failAppendOracle ⟨"INPUT", some 5060⟩ ⟨1, 2, 3, 4⟩
      (block_ip failAppendOracle ⟨"INPUT", some 5060⟩ ⟨1, 2, 3, 4⟩ []).2).1 = false :=
  ⟨by decide,
   ((c8_block_error_semantics failAppendOracle ⟨"INPUT", some 5060⟩ ⟨1, 2, 3, 4⟩ []
      (by decide)).1).mpr ⟨⟨true, "", ""⟩, by decide, rfl⟩,
   by decide⟩

end UABlock
